import Mathlib

/-!
Shallow embedding of the print-event monitoring agent of this repository
(`src/Monitoramento1/agent/agente.py`, class `PrintMonitor`), together with
proofs of the specification claims about it.

Modelling conventions:
* Python strings are `String` / `List Char`; Python sets of identity strings
  are `List String` kept duplicate-free by `pySetAdd` (the model of `set.add`).
* The PowerShell event source always populates `RecordId` and `MachineName`
  (see the `ps_script` literals in the source), so those fields are total; the
  `Message` field can be JSON `null`, which makes `extrair_dados_evento`
  raise a `TypeError` inside its `try` block and return `None` — modelled by
  `Message : Option String` with `none` mapping to extraction failure.
* Network effects are abstracted by oracles: one `Nat → AttemptResult` per
  `send_events` call (what the n-th HTTP attempt would return), and a family
  `Nat → Nat → AttemptResult` for `send_events_batch` (batch index, attempt).
* `re.search` is embedded pattern-by-pattern: each of the page-count regexes
  of `extrair_dados_evento` uses only greedy pieces (`\s*`, `\s+`, `\d+`,
  literals, `s?`, `\b`, alternations whose branches start with distinct
  letters), for which maximal-munch matching without backtracking is
  equivalent to Python's backtracking semantics: giving back a character from
  `\d+`/`\s*`/`s?` always leaves a character that the next pattern piece
  rejects.  `re.search`'s leftmost-match rule is `reSearch`, which tries the
  pattern at every suffix, leftmost first.
-/

namespace Agente

/-- Case folding used by the `re.IGNORECASE` patterns.  The pattern alphabets
are ASCII plus the accented vowel of the Portuguese keywords (`á`). -/
def lowerPy (c : Char) : Char :=
  if c = 'Á' then 'á' else c.toLower

/-- Python's `\s` class (ASCII part, which is all the messages use). -/
def isSpacePy (c : Char) : Bool :=
  c = ' ' || c = '\t' || c = '\n' || c = '\r' || c = '\x0b' || c = '\x0c'

/-- Python's `\w` class restricted to the alphabet of the patterns involved
(used only for the `\b` boundary after `page(s)`/`página(s)`). -/
def isWordPy (c : Char) : Bool :=
  c.isAlphanum || c = '_' || c = 'á' || c = 'Á'

/-- Decimal digit to character, as Python's `str` of a digit. -/
def digitChar10 (d : Nat) : Char :=
  if d = 0 then '0' else if d = 1 then '1' else if d = 2 then '2'
  else if d = 3 then '3' else if d = 4 then '4' else if d = 5 then '5'
  else if d = 6 then '6' else if d = 7 then '7' else if d = 8 then '8' else '9'

/-- Character back to digit value (inverse of `digitChar10` on digits). -/
def charVal (c : Char) : Nat :=
  if c = '0' then 0 else if c = '1' then 1 else if c = '2' then 2
  else if c = '3' then 3 else if c = '4' then 4 else if c = '5' then 5
  else if c = '6' then 6 else if c = '7' then 7 else if c = '8' then 8 else 9

/-- Little-endian digit expansion of a natural number (fuel-structured so the
kernel can evaluate it). -/
def natToDigitsAux : Nat → Nat → List Char
  | 0, _ => []
  | _ + 1, 0 => []
  | fuel + 1, n + 1 => digitChar10 ((n + 1) % 10) :: natToDigitsAux fuel ((n + 1) / 10)

/-- Decimal rendering of a record id, as Python's `str(int)` /
f-string interpolation. -/
def natToString (n : Nat) : String :=
  if n = 0 then "0" else String.mk (natToDigitsAux n n).reverse

/-- `PrintMonitor.criar_id_unico` (lines 92-96): the event identity
`f"{machine_name}_{record_id}"`.  (The Python default `machine_name=None`
meaning `self.machine_name` is resolved at each call site below.) -/
def criar_id_unico (machine_name : String) (record_id : Nat) : String :=
  machine_name ++ "_" ++ natToString record_id

/-- Value of a captured `(\d+)` group, as Python's `int(...)`. -/
def digitsVal (ds : List Char) : Nat :=
  ds.foldl (fun a c => 10 * a + charVal c) 0

/-! ### Regex combinators (consume from the front, return the rest) -/

/-- Match a literal, optionally case-insensitively. -/
def eatLit (ci : Bool) : List Char → List Char → Option (List Char)
  | [], s => some s
  | _ :: _, [] => none
  | c :: cs, x :: xs =>
    if (if ci then lowerPy x == lowerPy c else x == c) then eatLit ci cs xs else none

/-- Greedy `\s*`. -/
def eatSpaces (s : List Char) : List Char := s.dropWhile isSpacePy

/-- Greedy `\s+`. -/
def eatSpaces1 (s : List Char) : Option (List Char) :=
  match s with
  | [] => none
  | x :: xs => if isSpacePy x then some (eatSpaces xs) else none

/-- Greedy `(\d+)`: returns the captured value and the rest. -/
def eatDigits1 (s : List Char) : Option (Nat × List Char) :=
  match s.takeWhile Char.isDigit with
  | [] => none
  | ds => some (digitsVal ds, s.dropWhile Char.isDigit)

/-- Greedy `s?` (case-insensitive) in a context where nothing after the
group could be rescued by giving the `s` back: the piece after it is
`\s*:` and `s` is neither a space nor `:`. -/
def eatOptS (s : List Char) : List Char :=
  match s with
  | [] => []
  | x :: xs => if lowerPy x == 's' then xs else x :: xs

/-- Greedy `s?\b` where the character just consumed before the group is a
word character (the `e`/`a` of `page`/`página`).  If the optional `s` is
present but followed by a word character, Python's backtracking also fails:
dropping the `s` puts the boundary between two word characters. -/
def eatOptSB (s : List Char) : Option (List Char) :=
  match s with
  | [] => some []
  | x :: xs =>
    if lowerPy x == 's' then
      match xs with
      | [] => some []
      | y :: _ => if isWordPy y then none else some xs
    else if isWordPy x then none else some (x :: xs)

/-! ### The page-count patterns of `extrair_dados_evento` (lines 345-436) -/

/-- `HEADER\s*(\d+)` (case-sensitive), shared shape of the patterns
`Pages printed:`, `Total pages printed:`, `Páginas impressas:` and
`Total de páginas impressas:`. -/
def mPagesCount (header : String) (s : List Char) : Option Nat :=
  match eatLit false header.data s with
  | none => none
  | some s1 =>
    match eatDigits1 (eatSpaces s1) with
    | none => none
    | some (v, _) => some v

/-- EN pattern 1: `Pages printed:\s*(\d+)`. -/
def mEN1 : List Char → Option Nat := mPagesCount "Pages printed:"

/-- EN pattern 2: `Total pages printed:\s*(\d+)`. -/
def mEN2 : List Char → Option Nat := mPagesCount "Total pages printed:"

/-- PT pattern 1: `Páginas impressas:\s*(\d+)`. -/
def mPT1 : List Char → Option Nat := mPagesCount "Páginas impressas:"

/-- PT pattern 2: `Total de páginas impressas:\s*(\d+)`. -/
def mPT2 : List Char → Option Nat := mPagesCount "Total de páginas impressas:"

/-- `(\d+)\s+STEMs?\b` with `re.IGNORECASE`, the shape of
`(\d+)\s+pages?\b` and `(\d+)\s+páginas?\b`. -/
def mTrailing (stem : String) (s : List Char) : Option Nat :=
  match eatDigits1 s with
  | none => none
  | some (v, s1) =>
    match eatSpaces1 s1 with
    | none => none
    | some s2 =>
      match eatLit true stem.data s2 with
      | none => none
      | some s3 =>
        match eatOptSB s3 with
        | none => none
        | some _ => some v

/-- EN pattern 3: `(\d+)\s+pages?\b` (IGNORECASE). -/
def mEN3 : List Char → Option Nat := mTrailing "page"

/-- PT pattern 3: `(\d+)\s+páginas?\b` (IGNORECASE). -/
def mPT3 : List Char → Option Nat := mTrailing "página"

/-- EN pattern 4 (line 413):
`(?:Size in bytes:|Tamanho em bytes:)\s*\d+\.\s*(?:Pages printed:|Páginas impressas:)?\s*(\d+)`.
The optional middle group is taken greedily; skipping it when it matches
cannot succeed because the group starts with a letter, not a digit. -/
def mEN4 (s : List Char) : Option Nat :=
  match (eatLit false "Size in bytes:".data s).orElse
      (fun _ => eatLit false "Tamanho em bytes:".data s) with
  | none => none
  | some s1 =>
    match eatDigits1 (eatSpaces s1) with
    | none => none
    | some (_, s2) =>
      match eatLit false ".".data s2 with
      | none => none
      | some s3 =>
        let s4 := eatSpaces s3
        let s5 :=
          match (eatLit false "Pages printed:".data s4).orElse
              (fun _ => eatLit false "Páginas impressas:".data s4) with
          | some s' => s'
          | none => s4
        match eatDigits1 (eatSpaces s5) with
        | none => none
        | some (v, _) => some v

/-- Shared tail `\s*:\s*(\d+)` of the generic keyword patterns. -/
def colonCount (s : List Char) : Option Nat :=
  match eatLit false ":".data (eatSpaces s) with
  | none => none
  | some s2 =>
    match eatDigits1 (eatSpaces s2) with
    | none => none
    | some (v, _) => some v

/-- Generic pattern 1: `(?:páginas?|pages?)\s*:\s*(\d+)` (IGNORECASE).
The two alternatives diverge at their second letter, so trying them in
order without cross-backtracking is faithful. -/
def mG1 (s : List Char) : Option Nat :=
  match ((eatLit true "página".data s).map eatOptS).orElse
      (fun _ => (eatLit true "page".data s).map eatOptS) with
  | none => none
  | some s1 => colonCount s1

/-- Generic pattern 2: `(\d+)\s*(?:páginas?|pages?)` (IGNORECASE); nothing
follows the alternation, so matching the stem suffices. -/
def mG2 (s : List Char) : Option Nat :=
  match eatDigits1 s with
  | none => none
  | some (v, s1) =>
    match (eatLit true "página".data (eatSpaces s1)).orElse
        (fun _ => eatLit true "page".data (eatSpaces s1)) with
    | none => none
    | some _ => some v

/-- Generic pattern 3: `(?:total|Total)\s*:\s*(\d+)` (IGNORECASE makes both
alternatives the same literal). -/
def mG3 (s : List Char) : Option Nat :=
  match eatLit true "total".data s with
  | none => none
  | some s1 => colonCount s1

/-- Generic pattern 4: `(?:impressas?|printed)\s*:\s*(\d+)` (IGNORECASE). -/
def mG4 (s : List Char) : Option Nat :=
  match ((eatLit true "impressa".data s).map eatOptS).orElse
      (fun _ => eatLit true "printed".data s) with
  | none => none
  | some s1 => colonCount s1

/-- `re.search`: try the pattern at every position, leftmost match wins. -/
def reSearch (p : List Char → Option Nat) : List Char → Option Nat
  | [] => p []
  | c :: rest =>
    match p (c :: rest) with
    | some v => some v
    | none => reSearch p rest

/-- Python's `startswith` on character lists. -/
def startsWithPy : List Char → List Char → Bool
  | [], _ => true
  | _ :: _, [] => false
  | c :: p, x :: xs => c == x && startsWithPy p xs

/-- Python's substring test `p in s`. -/
def containsPy (p : List Char) : List Char → Bool
  | [] => startsWithPy p []
  | x :: xs => startsWithPy p (x :: xs) || containsPy p xs

/-- Language dispatch (line 331):
`'pertencente a' in mensagem or 'foi impresso' in mensagem`. -/
def ptBranch (m : List Char) : Bool :=
  containsPy "pertencente a".data m || containsPy "foi impresso".data m

/-- The Portuguese page patterns in their order of appearance. -/
def padroes_pt : List (List Char → Option Nat) := [mPT1, mPT2, mPT3]

/-- The English page patterns in their order of appearance. -/
def padroes_en : List (List Char → Option Nat) := [mEN1, mEN2, mEN3, mEN4]

/-- The generic keyword patterns of lines 422-427, in order. -/
def padroes_genericos : List (List Char → Option Nat) := [mG1, mG2, mG3, mG4]

/-- Transliteration of the Portuguese `pages_found` chain (lines 345-369):
the first *matching* pattern wins, no range check. -/
def paginas_base_pt (m : List Char) : Nat :=
  match reSearch mPT1 m with
  | some v => v
  | none =>
    match reSearch mPT2 m with
    | some v => v
    | none =>
      match reSearch mPT3 m with
      | some v => v
      | none => 1

/-- Transliteration of the English `pages_found` chain (lines 385-417). -/
def paginas_base_en (m : List Char) : Nat :=
  match reSearch mEN1 m with
  | some v => v
  | none =>
    match reSearch mEN2 m with
    | some v => v
    | none =>
      match reSearch mEN3 m with
      | some v => v
      | none =>
        match reSearch mEN4 m with
        | some v => v
        | none => 1

/-- The generic scan of lines 419-436: the first generic pattern whose value
lies in `[1, 10000]`; a pattern that matches out of range does not break the
loop. -/
def genericFirstInRange (m : List Char) : Option Nat :=
  padroes_genericos.findSome? fun g =>
    match reSearch g m with
    | some v => if 1 ≤ v ∧ v ≤ 10000 then some v else none
    | none => none

/-- `dados['pages']` just before the final validation: language branch,
then the generic scan, which runs exactly when the current value is `1`
(line 420). -/
def paginas_pre (m : List Char) : Nat :=
  let base := if ptBranch m then paginas_base_pt m else paginas_base_en m
  if base = 1 then
    match genericFirstInRange m with
    | some v => v
    | none => base
  else base

/-- The extracted page count including the final validation of lines
438-441: any value outside `[1, 10000]` is replaced by `1`. -/
def extrair_paginas (m : List Char) : Nat :=
  let p := paginas_pre m
  if p < 1 ∨ p > 10000 then 1 else p

/-- Claim C6 as stated by the spec: the first pattern, in the order
(a) `Pages printed`, (b) `Total pages printed`, (c) trailing `N page(s)`,
(d) size-plus-count composite, (e) generic keyword scan, *that yields a
value inside `[1,10000]`* wins; default `1`.  This is the spec-side
function used only to compare against the code. -/
def espec_c6 (m : List Char) : Nat :=
  let pats := if ptBranch m then padroes_pt else padroes_en
  match pats.findSome? (fun p =>
      match reSearch p m with
      | some v => if 1 ≤ v ∧ v ≤ 10000 then some v else none
      | none => none) with
  | some v => v
  | none =>
    match genericFirstInRange m with
    | some v => v
    | none => 1

/-- The amended claim C6: among the language-specific patterns the first
pattern that *matches* wins regardless of range (the Portuguese branch has
no composite pattern (d)); the generic scan runs only when the value so far
is `1` and takes the first in-range match; finally any out-of-range value
is replaced by `1`. -/
def espec_emendada (m : List Char) : Nat :=
  let pats := if ptBranch m then padroes_pt else padroes_en
  let base := (pats.findSome? (fun p => reSearch p m)).getD 1
  let v := if base = 1 then (genericFirstInRange m).getD 1 else base
  if v < 1 ∨ v > 10000 then 1 else v

/-! ### Events -/

/-- One raw event as produced by the PowerShell fetch (`RecordId`,
`TimeCreated`, `MachineName` always populated; `Message` possibly null). -/
structure RawEvent where
  RecordId : Nat
  TimeCreated : String
  MachineName : String
  Message : Option String
deriving DecidableEq

/-- The canonical record built by `extrair_dados_evento`.  The `user`,
`document` and `printer` fields are extracted by analogous first-match
regexes with sentinel defaults and are not referenced by any verified
property, so they are omitted from the model. -/
structure Dados where
  record_id : Nat
  date : String
  machine : String
  pages : Nat
deriving DecidableEq

/-- A record as transmitted: `record_id` is stripped before sending
(lines 460-465 and 656-661). -/
structure SentEvent where
  date : String
  machine : String
  pages : Nat
deriving DecidableEq

/-- `PrintMonitor.extrair_dados_evento` (lines 310-450): a null `Message`
raises inside the `try` and yields `None`; otherwise a record is always
produced (extraction degrades to defaults, never fails). -/
def extrair_dados_evento (machine : String) (e : RawEvent) : Option Dados :=
  match e.Message with
  | none => none
  | some msg =>
    some { record_id := e.RecordId, date := e.TimeCreated, machine := e.MachineName,
           pages := extrair_paginas msg.data }

/-- The `event_copy.pop('record_id', None)` step before transmission. -/
def strip (d : Dados) : SentEvent := ⟨d.date, d.machine, d.pages⟩

/-! ### Python set and dynamic-typing primitives -/

/-- `set.add` on the identity set. -/
def pySetAdd (ids : List String) (x : String) : List String :=
  if x ∈ ids then ids else x :: ids

/-- Python 3 `str > int` comparison: unconditionally a `TypeError`. -/
def pyGtStrInt (_s : String) (_n : Int) : Except String Bool :=
  .error "TypeError"

/-- The set comprehension of lines 689-692,
`{rid for rid in eventos_processados if rid > highest_record_id - 5000}`:
each element is a string compared against an integer, so the first element
already raises. -/
def pyFilterGt : List String → Int → Except String (List String)
  | [], _ => .ok []
  | rid :: rest, t =>
    match pyGtStrInt rid t with
    | .error e => .error e
    | .ok b =>
      match pyFilterGt rest t with
      | .error e => .error e
      | .ok keep => .ok (if b then rid :: keep else keep)

/-! ### Sender -/

/-- Outcome of one HTTP attempt: a response with a status code, or a
network-level error (`ConnectionError`, `Timeout`, other exception). -/
inductive AttemptResult where
  | status (code : Nat)
  | netErr
deriving DecidableEq

/-- Only HTTP 200 counts as success (line 507). -/
def attemptSuccess : AttemptResult → Bool
  | .status c => c == 200
  | .netErr => false

/-- Result of a `send_events` call: the returned boolean, the number of
attempts performed, and the number of 5-second sleeps taken (line 522). -/
structure SendResult where
  success : Bool
  attempts : Nat
  sleeps : Nat
deriving DecidableEq

/-- The retry loop of `send_events` (lines 498-524): `n` remaining
attempts starting from attempt index `i`; sleep only after a failed
non-final attempt. -/
def sendLoop (att : Nat → AttemptResult) : Nat → Nat → SendResult
  | 0, _ => ⟨false, 0, 0⟩
  | n + 1, i =>
    if attemptSuccess (att i) then ⟨true, 1, 0⟩
    else if n = 0 then ⟨false, 1, 0⟩
    else
      let r := sendLoop att n (i + 1)
      ⟨r.success, r.attempts + 1, r.sleeps + 1⟩

/-- `PrintMonitor.send_events` (lines 493-524): empty input returns `True`
without any attempt. -/
def send_events (events : List SentEvent) (max_retries : Nat)
    (att : Nat → AttemptResult) : SendResult :=
  if events.isEmpty then ⟨true, 0, 0⟩ else sendLoop att max_retries 0

/-- Fixed-size chunking, fuel-structured (`range(0, n, batch_size)` with
the Python precondition `batch_size ≥ 1`; `max bs 1` only guards the
fuel argument, `range` with step 0 raises in Python). -/
def chunksOfAux {α : Type} (bs : Nat) : Nat → List α → List (List α)
  | 0, _ => []
  | _ + 1, [] => []
  | fuel + 1, x :: xs =>
    ((x :: xs).take (max bs 1)) :: chunksOfAux bs fuel ((x :: xs).drop (max bs 1))

/-- The batch slicing `events_to_send[i:i + self.batch_size]` of line 472. -/
def chunksOf {α : Type} (bs : Nat) (l : List α) : List (List α) :=
  chunksOfAux bs l.length l

/-- Per-batch delivery: batch `i` gets its own retry budget through its own
attempt oracle `att i`. -/
def sendBatches (mr : Nat) (att : Nat → Nat → AttemptResult) :
    Nat → List (List SentEvent) → List Bool
  | _, [] => []
  | i, b :: rest => (send_events b mr (att i)).success :: sendBatches mr att (i + 1) rest

/-- Result of `send_events_batch`: the returned boolean
(`len(failed_batches) == 0`), the batches attempted, and the per-batch
outcomes. -/
structure BatchSendResult where
  all_ok : Bool
  batches : List (List SentEvent)
  results : List Bool
deriving DecidableEq

/-- `PrintMonitor.send_events_batch` (lines 452-491): strips `record_id`,
chunks, sends each batch with its own retry budget, succeeds only if every
batch succeeded. -/
def send_events_batch (events : List Dados) (batch_size max_retries : Nat)
    (att : Nat → Nat → AttemptResult) : BatchSendResult :=
  if events.isEmpty then ⟨true, [], []⟩
  else
    let bats := chunksOf batch_size (events.map strip)
    let results := sendBatches max_retries att 0 bats
    ⟨results.all (fun b => b), bats, results⟩

/-! ### Agent loop -/

/-- The identity under which a buffered record is marked after a confirmed
delivery (line 668 calls `criar_id_unico(rid)` with the local machine). -/
def localId (machine : String) (d : Dados) : String :=
  criar_id_unico machine d.record_id

/-- The filter-extract-buffer pass of one steady tick (lines 631-645):
an event is accepted only if its identity is not in the processed set *at
that point of the loop* (additions during the same tick are visible), it is
from the local machine, and its record id exceeds the high-water mark; on
acceptance its identity is added to the processed set immediately. -/
def coletar (machine : String) (hwm : Nat) :
    List RawEvent → List String → List Dados × List String
  | [], ids => ([], ids)
  | raw :: rest, ids =>
    let uid := criar_id_unico raw.MachineName raw.RecordId
    if uid ∉ ids ∧ raw.MachineName = machine ∧ hwm < raw.RecordId then
      match extrair_dados_evento machine raw with
      | some d =>
        let r := coletar machine hwm rest (pySetAdd ids uid)
        (d :: r.1, r.2)
      | none => coletar machine hwm rest ids
    else coletar machine hwm rest ids

/-- The marking loop after a confirmed buffer delivery (lines 665-669). -/
def marcar (machine : String) (buffer : List Dados) (ids : List String) : List String :=
  buffer.foldl (fun s e => pySetAdd s (localId machine e)) ids

/-- The high-water-mark update of lines 671-673 (the Python loop updates
the set and the mark in one pass; the two updates are independent). -/
def avancar (buffer : List Dados) (hwm : Nat) : Nat :=
  buffer.foldl (fun h e => if h < e.record_id then e.record_id else h) hwm

/-- The catch-up marking loop (lines 590-594): identities of *raw* events,
using the machine name carried by each event. -/
def marcarRaws (raws : List RawEvent) (ids : List String) : List String :=
  raws.foldl (fun s r => pySetAdd s (criar_id_unico r.MachineName r.RecordId)) ids

/-- The catch-up high-water-mark update (lines 596-598), guarded by the
machine-name check. -/
def avancarRaws (machine : String) (raws : List RawEvent) (hwm : Nat) : Nat :=
  raws.foldl
    (fun h r => if r.MachineName = machine ∧ h < r.RecordId then r.RecordId else h) hwm

/-- Observable outcome of one steady-poll tick. -/
structure TickResult where
  novos : List Dados
  enviados : List Dados
  ids : List String
  hwm : Nat
  buffer : List Dados
  saved : Option (List String)
  limpeza_erro : Bool
deriving DecidableEq

/-- One steady tick before the in-memory compaction step (lines 627-683):
collect, buffer, attempt delivery of the whole buffer, and on success mark,
advance the mark, clear the buffer and persist; on failure keep the buffer
(truncated to the newest 500 beyond 1000). -/
def tickPreLimpeza (machine : String) (ids : List String) (hwm : Nat)
    (buffer : List Dados) (eventos_raw : List RawEvent) (send_ok : Bool) : TickResult :=
  let col := coletar machine hwm eventos_raw ids
  let buffer1 := buffer ++ col.1
  if buffer1.isEmpty then
    ⟨col.1, [], col.2, hwm, buffer1, none, false⟩
  else if send_ok then
    let ids2 := marcar machine buffer1 col.2
    ⟨col.1, buffer1, ids2, avancar buffer1 hwm, [], some ids2, false⟩
  else
    ⟨col.1, buffer1, col.2, hwm,
      if 1000 < buffer1.length then buffer1.drop (buffer1.length - 500) else buffer1,
      none, false⟩

/-- One full steady tick including the cache compaction of lines 685-692:
when the processed set exceeds 10000 entries the comprehension compares a
string identity with an integer and raises; the exception is caught by the
outer handler (line 699), leaving the set unchanged. -/
def tick (machine : String) (ids : List String) (hwm : Nat) (buffer : List Dados)
    (eventos_raw : List RawEvent) (send_ok : Bool) : TickResult :=
  let r := tickPreLimpeza machine ids hwm buffer eventos_raw send_ok
  if 10000 < r.ids.length then
    match pyFilterGt r.ids ((r.hwm : Int) - 5000) with
    | .ok ids2 => { r with ids := ids2 }
    | .error _ => { r with limpeza_erro := true }
  else r

/-- Two consecutive steady ticks. -/
def tick2 (machine : String) (ids : List String) (hwm : Nat) (buffer : List Dados)
    (raws1 : List RawEvent) (ok1 : Bool) (raws2 : List RawEvent) (ok2 : Bool) : TickResult :=
  let r1 := tick machine ids hwm buffer raws1 ok1
  tick machine r1.ids r1.hwm r1.buffer raws2 ok2

/-- Observable outcome of the drain path (lines 704-722). -/
structure DrainResult where
  ids : List String
  persists : List (List String)
  enviados : List SentEvent
deriving DecidableEq

/-- The drain path after the loop breaks: one final delivery attempt of the
remaining buffer, marking on success, then an *unconditional* final
`salvar_eventos_processados()` at line 722.  `persists` lists the identity
sets written, in order. -/
def drain (machine : String) (ids : List String) (buffer : List Dados)
    (send_ok : Bool) : DrainResult :=
  if buffer.isEmpty then ⟨ids, [ids], []⟩
  else
    let payload := buffer.map strip
    if send_ok then
      let ids2 := marcar machine buffer ids
      ⟨ids2, [ids2, ids2], payload⟩
    else ⟨ids, [ids], payload⟩

/-- Observable outcome of the catch-up pass. -/
structure CatchUpResult where
  ids : List String
  hwm : Nat
  saved : Bool
  enviados : List (List SentEvent)
  delivered : Bool
deriving DecidableEq

/-- `PrintMonitor.processar_todos_eventos` (lines 526-606): filter already
processed events, extract, deliver in batches; only if *all* batches
succeed are all the pass's raw events (including those whose extraction
failed) marked and the state persisted. -/
def processar_todos_eventos (machine : String) (ids : List String) (hwm : Nat)
    (eventos_raw : List RawEvent) (batch_size max_retries : Nat)
    (att : Nat → Nat → AttemptResult) : CatchUpResult :=
  if eventos_raw.isEmpty then ⟨ids, hwm, false, [], true⟩
  else
    let nao := eventos_raw.filter fun r =>
      decide (criar_id_unico r.MachineName r.RecordId ∉ ids)
    if nao.isEmpty then ⟨ids, hwm, false, [], true⟩
    else
      let extraidos := nao.filterMap (extrair_dados_evento machine)
      if extraidos.isEmpty then ⟨ids, hwm, false, [], true⟩
      else
        let envio := send_events_batch extraidos batch_size max_retries att
        if envio.all_ok then
          ⟨marcarRaws nao ids, avancarRaws machine nao hwm, true, envio.batches, true⟩
        else ⟨ids, hwm, false, envio.batches, false⟩

/-- Little-endian value of a digit string (used to invert `natToDigitsAux`). -/
def valLE : List Char → Nat
  | [] => 0
  | c :: r => charVal c + 10 * valLE r

/-- Invariant of reachable steady-loop states: the buffered records carry
pairwise-distinct local identities, are all from the local machine, and
their identities are already in the processed set (they were added at
buffering time, line 645). -/
def GoodBuffer (machine : String) (ids : List String) (buffer : List Dados) : Prop :=
  (buffer.map (localId machine)).Nodup ∧
  ∀ d ∈ buffer, d.machine = machine ∧ localId machine d ∈ ids

end Agente

namespace Agente

/-! ## Helper lemmas -/

theorem strExt {a b : String} (h : a.data = b.data) : a = b := by
  cases a; cases b; exact congrArg String.mk (by simpa using h)

theorem strDataAppend (a b : String) : (a ++ b).data = a.data ++ b.data := rfl

theorem digitChar10_ne_underscore (d : Nat) : digitChar10 d ≠ '_' := by
  unfold digitChar10
  split_ifs <;> decide

theorem charVal_digitChar10 {d : Nat} (h : d < 10) : charVal (digitChar10 d) = d := by
  interval_cases d <;> rfl

theorem valLE_natToDigitsAux : ∀ fuel n, n ≤ fuel → valLE (natToDigitsAux fuel n) = n := by
  intro fuel
  induction fuel with
  | zero =>
    intro n h
    interval_cases n
    rfl
  | succ f ih =>
    intro n h
    match n with
    | 0 => rfl
    | m + 1 =>
      have hdiv : (m + 1) / 10 ≤ f := by
        have := Nat.div_lt_self (Nat.succ_pos m) (by norm_num : 1 < 10)
        omega
      have hmod : (m + 1) % 10 < 10 := Nat.mod_lt _ (by norm_num)
      show valLE (digitChar10 ((m + 1) % 10) :: natToDigitsAux f ((m + 1) / 10)) = m + 1
      rw [valLE, ih _ hdiv, charVal_digitChar10 hmod]
      omega

theorem natToDigitsAux_ne_underscore :
    ∀ fuel n c, c ∈ natToDigitsAux fuel n → c ≠ '_' := by
  intro fuel
  induction fuel with
  | zero => intro n c hc; simp [natToDigitsAux] at hc
  | succ f ih =>
    intro n c hc
    match n with
    | 0 => simp [natToDigitsAux] at hc
    | m + 1 =>
      rw [natToDigitsAux] at hc
      rcases List.mem_cons.mp hc with h | h
      · subst h; exact digitChar10_ne_underscore _
      · exact ih _ _ h

theorem natToString_ne_underscore (n : Nat) : '_' ∉ (natToString n).data := by
  unfold natToString
  split_ifs with h
  · intro hc
    simp only [show ("0" : String).data = ['0'] from rfl] at hc
    simp at hc
  · intro hc
    have hm : '_' ∈ natToDigitsAux n n := List.mem_reverse.mp hc
    exact natToDigitsAux_ne_underscore n n '_' hm rfl

theorem natToString_inj {a b : Nat} (h : natToString a = natToString b) : a = b := by
  unfold natToString at h
  split_ifs at h with ha hb hb
  · omega
  · exfalso
    have hd := congrArg String.data h
    simp only [show ("0" : String).data = ['0'] from rfl] at hd
    have hl : natToDigitsAux b b = ['0'] := by
      have := congrArg List.reverse hd
      simpa using this.symm
    have hv := valLE_natToDigitsAux b b le_rfl
    rw [hl] at hv
    simp [valLE, charVal] at hv
    omega
  · exfalso
    have hd := congrArg String.data h
    simp only [show ("0" : String).data = ['0'] from rfl] at hd
    have hl : natToDigitsAux a a = ['0'] := by
      have := congrArg List.reverse hd
      simpa using this
    have hv := valLE_natToDigitsAux a a le_rfl
    rw [hl] at hv
    simp [valLE, charVal] at hv
    omega
  · have hd := congrArg String.data h
    simp only [String.mk] at hd
    have hl : natToDigitsAux a a = natToDigitsAux b b := by
      have := congrArg List.reverse hd
      simpa using this
    have hva := valLE_natToDigitsAux a a le_rfl
    have hvb := valLE_natToDigitsAux b b le_rfl
    rw [hl] at hva
    omega

theorem append_underscore_inj :
    ∀ (a u b v : List Char), '_' ∉ u → '_' ∉ v →
      a ++ '_' :: u = b ++ '_' :: v → a = b ∧ u = v := by
  intro a
  induction a with
  | nil =>
    intro u b v hu hv h
    match b with
    | [] => simpa using h
    | c :: b' =>
      exfalso
      simp only [List.nil_append, List.cons_append, List.cons.injEq] at h
      exact hu (h.2 ▸ List.mem_append_right b' (List.mem_cons_self _ _))
  | cons x a' ih =>
    intro u b v hu hv h
    match b with
    | [] =>
      exfalso
      simp only [List.nil_append, List.cons_append, List.cons.injEq] at h
      exact hv (h.2 ▸ List.mem_append_right a' (List.mem_cons_self _ _))
    | c :: b' =>
      simp only [List.cons_append, List.cons.injEq] at h
      rcases ih u b' v hu hv h.2 with ⟨e1, e2⟩
      exact ⟨by rw [h.1, e1], e2⟩

theorem criar_id_unico_data (machine : String) (rid : Nat) :
    (criar_id_unico machine rid).data = machine.data ++ '_' :: (natToString rid).data := by
  unfold criar_id_unico
  rw [strDataAppend, strDataAppend, List.append_assoc]
  rfl

end Agente

namespace Agente

/-! ## Claim C9 -/

/-- C9: the identity encoding `criar_id_unico` is a pure deterministic
function of `(host, sequence)` and is injective, including for host names
that themselves contain underscores: since the decimal rendering of the
sequence contains no underscore, the *last* underscore of the encoded
string is exactly the separator. -/
theorem claim9_identity_injective (h1 : String) (s1 : Nat) (h2 : String) (s2 : Nat)
    (h : criar_id_unico h1 s1 = criar_id_unico h2 s2) : h1 = h2 ∧ s1 = s2 := by
  have hd := congrArg String.data h
  rw [criar_id_unico_data, criar_id_unico_data] at hd
  rcases append_underscore_inj h1.data (natToString s1).data h2.data (natToString s2).data
      (natToString_ne_underscore s1) (natToString_ne_underscore s2) hd with ⟨e1, e2⟩
  exact ⟨strExt e1, natToString_inj (strExt e2)⟩

/-- Witness for C9 at a host name containing an underscore. -/
theorem claim9_identity_injective_witness : ("PC_1" : String) = "PC_1" ∧ 23 = 23 :=
  claim9_identity_injective "PC_1" 23 "PC_1" 23 rfl

/-! ## Set / fold lemmas -/

theorem pySetAdd_mem {ids : List String} {x y : String} :
    y ∈ pySetAdd ids x ↔ y ∈ ids ∨ y = x := by
  unfold pySetAdd
  split_ifs with h
  · constructor
    · exact Or.inl
    · rintro (hy | rfl)
      · exact hy
      · exact h
  · simp [or_comm]

theorem pySetAdd_sub {ids : List String} {x : String} : ids ⊆ pySetAdd ids x := by
  intro y hy
  exact pySetAdd_mem.mpr (Or.inl hy)

theorem marcar_mem (machine : String) :
    ∀ (buffer : List Dados) (ids : List String) (x : String),
      x ∈ marcar machine buffer ids ↔ x ∈ ids ∨ ∃ d ∈ buffer, x = localId machine d := by
  intro buffer
  induction buffer with
  | nil => simp [marcar]
  | cons d rest ih =>
    intro ids x
    show x ∈ marcar machine rest (pySetAdd ids (localId machine d)) ↔ _
    rw [ih]
    rw [pySetAdd_mem]
    constructor
    · rintro ((hy | rfl) | ⟨d', hd', rfl⟩)
      · exact Or.inl hy
      · exact Or.inr ⟨d, List.mem_cons_self _ _, rfl⟩
      · exact Or.inr ⟨d', List.mem_cons_of_mem _ hd', rfl⟩
    · rintro (hy | ⟨d', hd', rfl⟩)
      · exact Or.inl (Or.inl hy)
      · rcases List.mem_cons.mp hd' with rfl | hd'
        · exact Or.inl (Or.inr rfl)
        · exact Or.inr ⟨d', hd', rfl⟩

theorem marcar_sub (machine : String) :
    ∀ (buffer : List Dados) (ids : List String), ids ⊆ marcar machine buffer ids := by
  intro buffer ids x hx
  exact (marcar_mem machine buffer ids x).mpr (Or.inl hx)

theorem marcarRaws_mem :
    ∀ (raws : List RawEvent) (ids : List String) (x : String),
      x ∈ marcarRaws raws ids ↔
        x ∈ ids ∨ ∃ r ∈ raws, x = criar_id_unico r.MachineName r.RecordId := by
  intro raws
  induction raws with
  | nil => simp [marcarRaws]
  | cons r rest ih =>
    intro ids x
    show x ∈ marcarRaws rest (pySetAdd ids (criar_id_unico r.MachineName r.RecordId)) ↔ _
    rw [ih, pySetAdd_mem]
    constructor
    · rintro ((hy | rfl) | ⟨r', hr', rfl⟩)
      · exact Or.inl hy
      · exact Or.inr ⟨r, List.mem_cons_self _ _, rfl⟩
      · exact Or.inr ⟨r', List.mem_cons_of_mem _ hr', rfl⟩
    · rintro (hy | ⟨r', hr', rfl⟩)
      · exact Or.inl (Or.inl hy)
      · rcases List.mem_cons.mp hr' with rfl | hr'
        · exact Or.inl (Or.inr rfl)
        · exact Or.inr ⟨r', hr', rfl⟩

theorem avancar_ge : ∀ (l : List Dados) (h0 : Nat), h0 ≤ avancar l h0 := by
  intro l
  induction l with
  | nil => intro h0; exact le_rfl
  | cons d rest ih =>
    intro h0
    show h0 ≤ avancar rest (if h0 < d.record_id then d.record_id else h0)
    refine le_trans ?_ (ih _)
    split_ifs with h
    · omega
    · exact le_rfl

theorem avancar_mem :
    ∀ (l : List Dados) (h0 : Nat),
      avancar l h0 = h0 ∨ ∃ d ∈ l, avancar l h0 = d.record_id := by
  intro l
  induction l with
  | nil => intro h0; exact Or.inl rfl
  | cons d rest ih =>
    intro h0
    show (avancar rest (if h0 < d.record_id then d.record_id else h0) = h0) ∨
      ∃ d' ∈ d :: rest,
        avancar rest (if h0 < d.record_id then d.record_id else h0) = d'.record_id
    split_ifs with hc
    · rcases ih d.record_id with h | ⟨d', hd', h⟩
      · exact Or.inr ⟨d, List.mem_cons_self _ _, h⟩
      · exact Or.inr ⟨d', List.mem_cons_of_mem _ hd', h⟩
    · rcases ih h0 with h | ⟨d', hd', h⟩
      · exact Or.inl h
      · exact Or.inr ⟨d', List.mem_cons_of_mem _ hd', h⟩

theorem avancarRaws_ge (machine : String) :
    ∀ (l : List RawEvent) (h0 : Nat), h0 ≤ avancarRaws machine l h0 := by
  intro l
  induction l with
  | nil => intro h0; exact le_rfl
  | cons r rest ih =>
    intro h0
    show h0 ≤ avancarRaws machine rest
      (if r.MachineName = machine ∧ h0 < r.RecordId then r.RecordId else h0)
    refine le_trans ?_ (ih _)
    split_ifs with h
    · omega
    · exact le_rfl

theorem avancarRaws_mem (machine : String) :
    ∀ (l : List RawEvent) (h0 : Nat),
      avancarRaws machine l h0 = h0 ∨
        ∃ r ∈ l, r.MachineName = machine ∧ avancarRaws machine l h0 = r.RecordId := by
  intro l
  induction l with
  | nil => intro h0; exact Or.inl rfl
  | cons r rest ih =>
    intro h0
    show (avancarRaws machine rest
        (if r.MachineName = machine ∧ h0 < r.RecordId then r.RecordId else h0) = h0) ∨
      ∃ r' ∈ r :: rest, r'.MachineName = machine ∧
        avancarRaws machine rest
          (if r.MachineName = machine ∧ h0 < r.RecordId then r.RecordId else h0) = r'.RecordId
    split_ifs with hc
    · rcases ih r.RecordId with h | ⟨r', hr', hm, h⟩
      · exact Or.inr ⟨r, List.mem_cons_self _ _, hc.1, h⟩
      · exact Or.inr ⟨r', List.mem_cons_of_mem _ hr', hm, h⟩
    · rcases ih h0 with h | ⟨r', hr', hm, h⟩
      · exact Or.inl h
      · exact Or.inr ⟨r', List.mem_cons_of_mem _ hr', hm, h⟩

end Agente

namespace Agente

/-! ## Extraction and collection lemmas -/

theorem extrair_fields {machine : String} {raw : RawEvent} {d : Dados}
    (h : extrair_dados_evento machine raw = some d) :
    d.record_id = raw.RecordId ∧ d.machine = raw.MachineName := by
  unfold extrair_dados_evento at h
  match hm : raw.Message with
  | none => rw [hm] at h; simp at h
  | some m =>
    rw [hm] at h
    simp only [Option.some.injEq] at h
    rw [← h]
    exact ⟨rfl, rfl⟩

theorem coletar_spec (machine : String) (hwm : Nat) :
    ∀ (raws : List RawEvent) (ids : List String),
      ids ⊆ (coletar machine hwm raws ids).2 ∧
      (∀ d ∈ (coletar machine hwm raws ids).1,
        d.machine = machine ∧ hwm < d.record_id ∧
        localId machine d ∉ ids ∧ localId machine d ∈ (coletar machine hwm raws ids).2) ∧
      ((coletar machine hwm raws ids).1.map (localId machine)).Nodup := by
  intro raws
  induction raws with
  | nil =>
    intro ids
    refine ⟨fun x hx => hx, ?_, List.nodup_nil⟩
    intro d hd
    simp [coletar] at hd
  | cons raw rest ih =>
    intro ids
    by_cases hc : criar_id_unico raw.MachineName raw.RecordId ∉ ids ∧
        raw.MachineName = machine ∧ hwm < raw.RecordId
    · match hext : extrair_dados_evento machine raw with
      | some d =>
        have hunf : coletar machine hwm (raw :: rest) ids =
            ((d :: (coletar machine hwm rest
                (pySetAdd ids (criar_id_unico raw.MachineName raw.RecordId))).1,
              (coletar machine hwm rest
                (pySetAdd ids (criar_id_unico raw.MachineName raw.RecordId))).2)) := by
          rw [coletar]
          rw [if_pos hc, hext]
        obtain ⟨hf1, hf2⟩ := extrair_fields hext
        have hid : localId machine d = criar_id_unico raw.MachineName raw.RecordId := by
          unfold localId
          rw [hf1, hc.2.1]
        obtain ⟨ihsub, ihmem, ihnd⟩ :=
          ih (pySetAdd ids (criar_id_unico raw.MachineName raw.RecordId))
        rw [hunf]
        refine ⟨?_, ?_, ?_⟩
        · intro x hx
          exact ihsub (pySetAdd_sub hx)
        · intro d' hd'
          rcases List.mem_cons.mp hd' with rfl | hd'
          · refine ⟨by rw [hf2, hc.2.1], by rw [hf1]; exact hc.2.2, by rw [hid]; exact hc.1, ?_⟩
            rw [hid]
            exact ihsub (pySetAdd_mem.mpr (Or.inr rfl))
          · obtain ⟨hm1, hm2, hm3, hm4⟩ := ihmem d' hd'
            exact ⟨hm1, hm2, fun hin => hm3 (pySetAdd_sub hin), hm4⟩
        · rw [List.map_cons, List.nodup_cons]
          refine ⟨?_, ihnd⟩
          intro hin
          rcases List.mem_map.mp hin with ⟨d', hd', he⟩
          obtain ⟨_, _, hm3, _⟩ := ihmem d' hd'
          apply hm3
          rw [he, hid]
          exact pySetAdd_mem.mpr (Or.inr rfl)
      | none =>
        have hunf : coletar machine hwm (raw :: rest) ids = coletar machine hwm rest ids := by
          rw [coletar]
          rw [if_pos hc, hext]
        rw [hunf]
        exact ih ids
    · have hunf : coletar machine hwm (raw :: rest) ids = coletar machine hwm rest ids := by
        rw [coletar]
        rw [if_neg hc]
      rw [hunf]
      exact ih ids

/-! ## Compaction lemmas -/

theorem pyFilterGt_ne_nil (l : List String) (t : Int) (h : l ≠ []) :
    pyFilterGt l t = .error "TypeError" := by
  match l with
  | [] => exact absurd rfl h
  | x :: r => rfl

/-! ## Tick structure lemmas -/

theorem tick_cases (machine : String) (ids : List String) (hwm : Nat) (buffer : List Dados)
    (raws : List RawEvent) (ok : Bool) :
    tick machine ids hwm buffer raws ok = tickPreLimpeza machine ids hwm buffer raws ok ∨
    tick machine ids hwm buffer raws ok =
      { tickPreLimpeza machine ids hwm buffer raws ok with limpeza_erro := true } := by
  simp only [tick]
  split_ifs with h
  · have hne : (tickPreLimpeza machine ids hwm buffer raws ok).ids ≠ [] := by
      intro hnil
      rw [hnil] at h
      simp at h
    rw [pyFilterGt_ne_nil _ _ hne]
    exact Or.inr rfl
  · exact Or.inl rfl

theorem tick_eq_pre (machine : String) (ids : List String) (hwm : Nat) (buffer : List Dados)
    (raws : List RawEvent) (ok : Bool) :
    (tick machine ids hwm buffer raws ok).novos =
      (tickPreLimpeza machine ids hwm buffer raws ok).novos ∧
    (tick machine ids hwm buffer raws ok).enviados =
      (tickPreLimpeza machine ids hwm buffer raws ok).enviados ∧
    (tick machine ids hwm buffer raws ok).ids =
      (tickPreLimpeza machine ids hwm buffer raws ok).ids ∧
    (tick machine ids hwm buffer raws ok).hwm =
      (tickPreLimpeza machine ids hwm buffer raws ok).hwm ∧
    (tick machine ids hwm buffer raws ok).buffer =
      (tickPreLimpeza machine ids hwm buffer raws ok).buffer ∧
    (tick machine ids hwm buffer raws ok).saved =
      (tickPreLimpeza machine ids hwm buffer raws ok).saved := by
  rcases tick_cases machine ids hwm buffer raws ok with h | h <;> rw [h] <;>
    exact ⟨rfl, rfl, rfl, rfl, rfl, rfl⟩

end Agente

namespace Agente

theorem tickPre_cases (machine : String) (ids : List String) (hwm : Nat) (buffer : List Dados)
    (raws : List RawEvent) (ok : Bool) :
    (buffer ++ (coletar machine hwm raws ids).1 = [] ∧
      tickPreLimpeza machine ids hwm buffer raws ok =
        ⟨(coletar machine hwm raws ids).1, [], (coletar machine hwm raws ids).2, hwm,
          buffer ++ (coletar machine hwm raws ids).1, none, false⟩) ∨
    (buffer ++ (coletar machine hwm raws ids).1 ≠ [] ∧ ok = true ∧
      tickPreLimpeza machine ids hwm buffer raws ok =
        ⟨(coletar machine hwm raws ids).1, buffer ++ (coletar machine hwm raws ids).1,
          marcar machine (buffer ++ (coletar machine hwm raws ids).1)
            (coletar machine hwm raws ids).2,
          avancar (buffer ++ (coletar machine hwm raws ids).1) hwm, [],
          some (marcar machine (buffer ++ (coletar machine hwm raws ids).1)
            (coletar machine hwm raws ids).2),
          false⟩) ∨
    (buffer ++ (coletar machine hwm raws ids).1 ≠ [] ∧ ok = false ∧
      tickPreLimpeza machine ids hwm buffer raws ok =
        ⟨(coletar machine hwm raws ids).1, buffer ++ (coletar machine hwm raws ids).1,
          (coletar machine hwm raws ids).2, hwm,
          if 1000 < (buffer ++ (coletar machine hwm raws ids).1).length then
            (buffer ++ (coletar machine hwm raws ids).1).drop
              ((buffer ++ (coletar machine hwm raws ids).1).length - 500)
          else buffer ++ (coletar machine hwm raws ids).1,
          none, false⟩) := by
  simp only [tickPreLimpeza]
  by_cases he : (buffer ++ (coletar machine hwm raws ids).1).isEmpty = true
  · left
    refine ⟨List.isEmpty_iff.mp he, ?_⟩
    rw [if_pos he]
  · have hne : buffer ++ (coletar machine hwm raws ids).1 ≠ [] := by
      intro hnil
      exact he (List.isEmpty_iff.mpr hnil)
    cases ok with
    | true =>
      right; left
      refine ⟨hne, rfl, ?_⟩
      rw [if_neg he, if_pos rfl]
    | false =>
      right; right
      refine ⟨hne, rfl, ?_⟩
      rw [if_neg he]
      simp only [Bool.false_eq_true, if_false]

/-! ## Claim C2 (code bug): the in-memory compaction raises `TypeError` -/

/-- C2: whenever the processed-identity set exceeds 10000 entries after a
steady tick, the compaction comprehension of lines 689-692 compares a
string identity against the integer `highest_record_id - 5000`, which in
Python 3 raises `TypeError` on the first element; the tick therefore ends
in the outer exception handler with the set unchanged, instead of
retaining exactly the identities above the threshold.  Stated here for a
quiet tick (no new events, empty buffer, no delivery); the general
comprehension fact is the second conjunct. -/
theorem claim2_compaction_raises (machine : String) (ids : List String) (hwm : Nat)
    (h : 10000 < ids.length) :
    (tick machine ids hwm [] [] false).limpeza_erro = true ∧
    (tick machine ids hwm [] [] false).ids = ids ∧
    ∀ (l : List String) (t : Int), l ≠ [] → pyFilterGt l t = .error "TypeError" := by
  have hcol : coletar machine hwm [] ids = ([], ids) := rfl
  have hpre : tickPreLimpeza machine ids hwm [] [] false =
      ⟨[], [], ids, hwm, [], none, false⟩ := by
    simp only [tickPreLimpeza, hcol, List.append_nil, List.isEmpty_nil, if_true]
  have hne : ids ≠ [] := by
    intro hnil
    rw [hnil] at h
    simp at h
  refine ⟨?_, ?_, fun l t hl => pyFilterGt_ne_nil l t hl⟩ <;>
  · simp only [tick, hpre]
    rw [if_pos (by simpa using h)]
    rw [pyFilterGt_ne_nil ids _ hne]

/-- Witness for C2: a concrete 10001-element identity set makes the
compaction step raise and leave the set unchanged. -/
theorem claim2_compaction_raises_witness :
    (tick "PC1" (List.replicate 10001 "PC1_1") 0 [] [] false).limpeza_erro = true ∧
    pyFilterGt ["PC1_1"] (-5000) = .error "TypeError" := by
  have h := claim2_compaction_raises "PC1" (List.replicate 10001 "PC1_1") 0
    (by rw [List.length_replicate]; norm_num)
  exact ⟨h.1, h.2.2 ["PC1_1"] (-5000) (by simp)⟩

/-! ## Claim C1 (corrected): pending identities and the final persist -/

/-- C1 counterexample: a single steady tick buffers local event 42 (its
identity enters the processed set at buffering time, line 645), delivery
fails (`saved = none`), and the drain path's final delivery also fails —
yet the unconditional final persist of line 722 durably writes the set
containing `"PC1_42"`, whose delivery was never confirmed. -/
theorem claim1_counterexample :
    (tick "PC1" [] 0 [] [⟨42, "d", "PC1", some "x"⟩] false).saved = none ∧
    (tick "PC1" [] 0 [] [⟨42, "d", "PC1", some "x"⟩] false).ids = ["PC1_42"] ∧
    (drain "PC1" (tick "PC1" [] 0 [] [⟨42, "d", "PC1", some "x"⟩] false).ids
        (tick "PC1" [] 0 [] [⟨42, "d", "PC1", some "x"⟩] false).buffer false).persists =
      [["PC1_42"]] := by
  refine ⟨?_, ?_, ?_⟩ <;> rfl

/-- C1 amended: the steady loop itself persists only after a confirmed
delivery — a tick whose delivery fails never calls
`salvar_eventos_processados` — but pending identities are *not* kept in a
separate set, and the drain path always ends with an unconditional persist
of the current processed set (line 722), which can therefore durably record
identities of buffered events whose delivery was never confirmed. -/
theorem claim1_amended_persistence (machine : String) (ids : List String) (hwm : Nat)
    (buffer : List Dados) (raws : List RawEvent) (ids2 : List String)
    (buffer2 : List Dados) (ok2 : Bool) :
    (tick machine ids hwm buffer raws false).saved = none ∧
    (drain machine ids2 buffer2 ok2).persists.getLast? =
      some (drain machine ids2 buffer2 ok2).ids ∧
    (drain machine ids2 buffer2 ok2).persists.length ≠ 0 := by
  refine ⟨?_, ?_, ?_⟩
  · rw [(tick_eq_pre machine ids hwm buffer raws false).2.2.2.2.2]
    rcases tickPre_cases machine ids hwm buffer raws false with
      ⟨_, heq⟩ | ⟨_, hok, _⟩ | ⟨_, _, heq⟩
    · rw [heq]
    · exact absurd hok (by simp)
    · rw [heq]
  · unfold drain
    split_ifs <;> rfl
  · unfold drain
    split_ifs <;> simp

end Agente

namespace Agente

theorem tick_novos_eq (machine : String) (ids : List String) (hwm : Nat)
    (buffer : List Dados) (raws : List RawEvent) (ok : Bool) :
    (tick machine ids hwm buffer raws ok).novos = (coletar machine hwm raws ids).1 := by
  rw [(tick_eq_pre machine ids hwm buffer raws ok).1]
  rcases tickPre_cases machine ids hwm buffer raws ok with
    ⟨_, heq⟩ | ⟨_, _, heq⟩ | ⟨_, _, heq⟩ <;> rw [heq]

theorem tick_ids_super (machine : String) (ids : List String) (hwm : Nat)
    (buffer : List Dados) (raws : List RawEvent) (ok : Bool) :
    (coletar machine hwm raws ids).2 ⊆ (tick machine ids hwm buffer raws ok).ids := by
  rw [(tick_eq_pre machine ids hwm buffer raws ok).2.2.1]
  rcases tickPre_cases machine ids hwm buffer raws ok with
    ⟨_, heq⟩ | ⟨_, _, heq⟩ | ⟨_, _, heq⟩ <;> rw [heq]
  · exact fun x hx => hx
  · exact marcar_sub machine _ _
  · exact fun x hx => hx

theorem tick_enviados_cases (machine : String) (ids : List String) (hwm : Nat)
    (buffer : List Dados) (raws : List RawEvent) (ok : Bool) :
    (tick machine ids hwm buffer raws ok).enviados = [] ∨
    (tick machine ids hwm buffer raws ok).enviados =
      buffer ++ (coletar machine hwm raws ids).1 := by
  rw [(tick_eq_pre machine ids hwm buffer raws ok).2.1]
  rcases tickPre_cases machine ids hwm buffer raws ok with
    ⟨_, heq⟩ | ⟨_, _, heq⟩ | ⟨_, _, heq⟩ <;> rw [heq]
  · exact Or.inl rfl
  · exact Or.inr rfl
  · exact Or.inr rfl

/-- After collection the grown buffer is well-formed with respect to the
grown identity set. -/
theorem buffer1_good (machine : String) (ids : List String) (hwm : Nat)
    (buffer : List Dados) (raws : List RawEvent)
    (hg : GoodBuffer machine ids buffer) :
    GoodBuffer machine (coletar machine hwm raws ids).2
      (buffer ++ (coletar machine hwm raws ids).1) := by
  obtain ⟨hsub, hmem, hnd⟩ := coletar_spec machine hwm raws ids
  constructor
  · rw [List.map_append, List.nodup_append]
    refine ⟨hg.1, hnd, ?_⟩
    intro x hx hx'
    rcases List.mem_map.mp hx with ⟨d, hd, rfl⟩
    rcases List.mem_map.mp hx' with ⟨d', hd', he⟩
    exact (hmem d' hd').2.2.1 (he ▸ (hg.2 d hd).2)
  · intro d hd
    rcases List.mem_append.mp hd with hd | hd
    · exact ⟨(hg.2 d hd).1, hsub (hg.2 d hd).2⟩
    · exact ⟨(hmem d hd).1, (hmem d hd).2.2.2⟩

/-- The steady tick preserves the buffer invariant. -/
theorem tick_good (machine : String) (ids : List String) (hwm : Nat)
    (buffer : List Dados) (raws : List RawEvent) (ok : Bool)
    (hg : GoodBuffer machine ids buffer) :
    GoodBuffer machine (tick machine ids hwm buffer raws ok).ids
      (tick machine ids hwm buffer raws ok).buffer := by
  have hb1 := buffer1_good machine ids hwm buffer raws hg
  rw [(tick_eq_pre machine ids hwm buffer raws ok).2.2.1,
    (tick_eq_pre machine ids hwm buffer raws ok).2.2.2.2.1]
  rcases tickPre_cases machine ids hwm buffer raws ok with
    ⟨h0, heq⟩ | ⟨_, _, heq⟩ | ⟨_, _, heq⟩ <;> rw [heq]
  · show GoodBuffer machine (coletar machine hwm raws ids).2
      (buffer ++ (coletar machine hwm raws ids).1)
    exact hb1
  · exact ⟨List.nodup_nil, by intro d hd; simp at hd⟩
  · show GoodBuffer machine (coletar machine hwm raws ids).2
      (if 1000 < (buffer ++ (coletar machine hwm raws ids).1).length then
        List.drop ((buffer ++ (coletar machine hwm raws ids).1).length - 500)
          (buffer ++ (coletar machine hwm raws ids).1)
      else buffer ++ (coletar machine hwm raws ids).1)
    split_ifs with hlen
    · constructor
      · rw [List.map_drop]
        exact List.Nodup.sublist (List.drop_sublist _ _) hb1.1
      · intro d hd
        exact hb1.2 d (List.mem_of_mem_drop hd)
    · exact hb1

/-! ## Claim C4 -/

/-- C4: in the steady loop a raw event is accepted into the buffer only if
its identity is absent from the processed set, it is from the local host,
and its record id exceeds the high-water mark; and because accepted
identities enter the processed set at buffering time, across two
consecutive ticks (overlapping fetch windows, failed deliveries included)
no event is buffered twice and every delivered request contains each
event's identity at most once. -/
theorem claim4_no_rebuffering (machine : String) (ids : List String) (hwm : Nat)
    (buffer : List Dados) (raws1 : List RawEvent) (ok1 : Bool)
    (raws2 : List RawEvent) (ok2 : Bool)
    (hg : GoodBuffer machine ids buffer) :
    (∀ d ∈ (tick machine ids hwm buffer raws1 ok1).novos,
      localId machine d ∉ ids ∧ d.machine = machine ∧ hwm < d.record_id) ∧
    (((tick machine ids hwm buffer raws1 ok1).novos ++
        (tick2 machine ids hwm buffer raws1 ok1 raws2 ok2).novos).map
      (localId machine)).Nodup ∧
    ((tick machine ids hwm buffer raws1 ok1).enviados.map (localId machine)).Nodup ∧
    ((tick2 machine ids hwm buffer raws1 ok1 raws2 ok2).enviados.map
      (localId machine)).Nodup := by
  obtain ⟨hsub1, hmem1, hnd1⟩ := coletar_spec machine hwm raws1 ids
  have hnov1 := tick_novos_eq machine ids hwm buffer raws1 ok1
  have hgood1 := tick_good machine ids hwm buffer raws1 ok1 hg
  obtain ⟨hsub2, hmem2, hnd2⟩ := coletar_spec machine
    (tick machine ids hwm buffer raws1 ok1).hwm raws2
    (tick machine ids hwm buffer raws1 ok1).ids
  have hnov2 : (tick2 machine ids hwm buffer raws1 ok1 raws2 ok2).novos =
      (coletar machine (tick machine ids hwm buffer raws1 ok1).hwm raws2
        (tick machine ids hwm buffer raws1 ok1).ids).1 :=
    tick_novos_eq machine _ _ _ raws2 ok2
  refine ⟨?_, ?_, ?_, ?_⟩
  · intro d hd
    rw [hnov1] at hd
    obtain ⟨h1, h2, h3, _⟩ := hmem1 d hd
    exact ⟨h3, h1, h2⟩
  · rw [List.map_append, List.nodup_append, hnov1, hnov2]
    refine ⟨hnd1, hnd2, ?_⟩
    intro x hx hx'
    rcases List.mem_map.mp hx with ⟨d, hd, rfl⟩
    rcases List.mem_map.mp hx' with ⟨d', hd', he⟩
    apply (hmem2 d' hd').2.2.1
    rw [he]
    exact tick_ids_super machine ids hwm buffer raws1 ok1 (hmem1 d hd).2.2.2
  · rcases tick_enviados_cases machine ids hwm buffer raws1 ok1 with h | h <;> rw [h]
    · exact List.nodup_nil
    · exact (buffer1_good machine ids hwm buffer raws1 hg).1
  · rcases tick_enviados_cases machine (tick machine ids hwm buffer raws1 ok1).ids
        (tick machine ids hwm buffer raws1 ok1).hwm
        (tick machine ids hwm buffer raws1 ok1).buffer raws2 ok2 with h | h
    · show ((tick machine (tick machine ids hwm buffer raws1 ok1).ids
          (tick machine ids hwm buffer raws1 ok1).hwm
          (tick machine ids hwm buffer raws1 ok1).buffer raws2 ok2).enviados.map
        (localId machine)).Nodup
      rw [h]
      exact List.nodup_nil
    · show ((tick machine (tick machine ids hwm buffer raws1 ok1).ids
          (tick machine ids hwm buffer raws1 ok1).hwm
          (tick machine ids hwm buffer raws1 ok1).buffer raws2 ok2).enviados.map
        (localId machine)).Nodup
      rw [h]
      exact (buffer1_good machine _ _ _ raws2 hgood1).1

/-- Witness for C4: a concrete run where the same event is fetched by two
overlapping windows with a failed delivery in between. -/
theorem claim4_no_rebuffering_witness :
    (((tick "PC1" [] 0 [] [⟨42, "d", "PC1", some "x"⟩] false).novos ++
        (tick2 "PC1" [] 0 [] [⟨42, "d", "PC1", some "x"⟩] false
          [⟨42, "d", "PC1", some "x"⟩] false).novos).map (localId "PC1")).Nodup :=
  (claim4_no_rebuffering "PC1" [] 0 [] [⟨42, "d", "PC1", some "x"⟩] false
    [⟨42, "d", "PC1", some "x"⟩] false
    ⟨List.nodup_nil, fun d hd => absurd hd (List.not_mem_nil d)⟩).2.1

end Agente

namespace Agente

theorem processar_cases (machine : String) (ids : List String) (hwm : Nat)
    (raws : List RawEvent) (bs mr : Nat) (att : Nat → Nat → AttemptResult) :
    (processar_todos_eventos machine ids hwm raws bs mr att = ⟨ids, hwm, false, [], true⟩) ∨
    ((send_events_batch
        ((raws.filter fun r =>
            decide (criar_id_unico r.MachineName r.RecordId ∉ ids)).filterMap
          (extrair_dados_evento machine)) bs mr att).all_ok = true ∧
      ((raws.filter fun r =>
          decide (criar_id_unico r.MachineName r.RecordId ∉ ids)).filterMap
        (extrair_dados_evento machine)) ≠ [] ∧
      processar_todos_eventos machine ids hwm raws bs mr att =
        ⟨marcarRaws (raws.filter fun r =>
            decide (criar_id_unico r.MachineName r.RecordId ∉ ids)) ids,
          avancarRaws machine (raws.filter fun r =>
            decide (criar_id_unico r.MachineName r.RecordId ∉ ids)) hwm,
          true,
          (send_events_batch
            ((raws.filter fun r =>
                decide (criar_id_unico r.MachineName r.RecordId ∉ ids)).filterMap
              (extrair_dados_evento machine)) bs mr att).batches,
          true⟩) ∨
    ((send_events_batch
        ((raws.filter fun r =>
            decide (criar_id_unico r.MachineName r.RecordId ∉ ids)).filterMap
          (extrair_dados_evento machine)) bs mr att).all_ok = false ∧
      processar_todos_eventos machine ids hwm raws bs mr att =
        ⟨ids, hwm, false,
          (send_events_batch
            ((raws.filter fun r =>
                decide (criar_id_unico r.MachineName r.RecordId ∉ ids)).filterMap
              (extrair_dados_evento machine)) bs mr att).batches,
          false⟩) := by
  simp only [processar_todos_eventos]
  by_cases h1 : raws.isEmpty = true
  · left
    rw [if_pos h1]
  · rw [if_neg h1]
    by_cases h2 : (raws.filter fun r =>
        decide (criar_id_unico r.MachineName r.RecordId ∉ ids)).isEmpty = true
    · left
      rw [if_pos h2]
    · rw [if_neg h2]
      by_cases h3 : ((raws.filter fun r =>
          decide (criar_id_unico r.MachineName r.RecordId ∉ ids)).filterMap
            (extrair_dados_evento machine)).isEmpty = true
      · left
        rw [if_pos h3]
      · rw [if_neg h3]
        by_cases h4 : (send_events_batch
            ((raws.filter fun r =>
                decide (criar_id_unico r.MachineName r.RecordId ∉ ids)).filterMap
              (extrair_dados_evento machine)) bs mr att).all_ok = true
        · right; left
          refine ⟨h4, fun hnil => h3 (by rw [hnil]; rfl), ?_⟩
          rw [if_pos h4]
        · right; right
          refine ⟨by simpa using h4, ?_⟩
          rw [if_neg h4]

theorem tick_hwm_cases (machine : String) (ids : List String) (hwm : Nat)
    (buffer : List Dados) (raws : List RawEvent) (ok : Bool) :
    ((tick machine ids hwm buffer raws ok).hwm = hwm) ∨
    (ok = true ∧
      (tick machine ids hwm buffer raws ok).hwm =
        avancar (buffer ++ (coletar machine hwm raws ids).1) hwm ∧
      (tick machine ids hwm buffer raws ok).enviados =
        buffer ++ (coletar machine hwm raws ids).1) := by
  rw [(tick_eq_pre machine ids hwm buffer raws ok).2.2.2.1]
  rcases tickPre_cases machine ids hwm buffer raws ok with
    ⟨_, heq⟩ | ⟨_, hok, heq⟩ | ⟨_, _, heq⟩
  · left; rw [heq]
  · right
    refine ⟨hok, by rw [heq], ?_⟩
    rw [(tick_eq_pre machine ids hwm buffer raws ok).2.1, heq]
  · left; rw [heq]

/-! ## Claim C8 -/

/-- C8: the local high-water mark is non-decreasing, both over a steady
tick and over a catch-up pass, and it advances only when a delivery is
confirmed, and then only to the record id of a local event of that
confirmed delivery (for the steady tick) or of the confirmed pass (for
catch-up).  The hypothesis that buffered events are local holds in every
reachable state (see `tick_good` and the collection filter). -/
theorem claim8_hwm_monotone (machine : String) (ids : List String) (hwm : Nat)
    (buffer : List Dados) (raws : List RawEvent) (ok : Bool)
    (ids2 : List String) (hwm2 : Nat) (raws2 : List RawEvent) (bs mr : Nat)
    (att : Nat → Nat → AttemptResult)
    (hb : ∀ d ∈ buffer, d.machine = machine) :
    hwm ≤ (tick machine ids hwm buffer raws ok).hwm ∧
    (hwm < (tick machine ids hwm buffer raws ok).hwm →
      ok = true ∧
      ∃ d ∈ (tick machine ids hwm buffer raws ok).enviados,
        d.machine = machine ∧ d.record_id = (tick machine ids hwm buffer raws ok).hwm) ∧
    hwm2 ≤ (processar_todos_eventos machine ids2 hwm2 raws2 bs mr att).hwm ∧
    (hwm2 < (processar_todos_eventos machine ids2 hwm2 raws2 bs mr att).hwm →
      (processar_todos_eventos machine ids2 hwm2 raws2 bs mr att).delivered = true ∧
      ∃ r ∈ raws2, r.MachineName = machine ∧
        r.RecordId = (processar_todos_eventos machine ids2 hwm2 raws2 bs mr att).hwm) := by
  obtain ⟨_, hmem1, _⟩ := coletar_spec machine hwm raws ids
  refine ⟨?_, ?_, ?_, ?_⟩
  · rcases tick_hwm_cases machine ids hwm buffer raws ok with h | ⟨_, h, _⟩
    · rw [h]
    · rw [h]
      exact avancar_ge _ _
  · intro hlt
    rcases tick_hwm_cases machine ids hwm buffer raws ok with h | ⟨hok, h, henv⟩
    · rw [h] at hlt; omega
    · refine ⟨hok, ?_⟩
      rcases avancar_mem (buffer ++ (coletar machine hwm raws ids).1) hwm with hmm | ⟨d, hd, hdd⟩
      · rw [h, hmm] at hlt; omega
      · refine ⟨d, by rw [henv]; exact hd, ?_, by rw [h, hdd]⟩
        rcases List.mem_append.mp hd with hd' | hd'
        · exact hb d hd'
        · exact (hmem1 d hd').1
  · rcases processar_cases machine ids2 hwm2 raws2 bs mr att with
      heq | ⟨_, _, heq⟩ | ⟨_, heq⟩
    · rw [heq]
    · rw [heq]
      exact avancarRaws_ge machine _ _
    · rw [heq]
  · intro hlt
    rcases processar_cases machine ids2 hwm2 raws2 bs mr att with
      heq | ⟨_, _, heq⟩ | ⟨_, heq⟩
    · rw [heq] at hlt
      simp only at hlt
      omega
    · rw [heq] at hlt ⊢
      refine ⟨rfl, ?_⟩
      rcases avancarRaws_mem machine (raws2.filter fun r =>
          decide (criar_id_unico r.MachineName r.RecordId ∉ ids2)) hwm2 with
        hmm | ⟨r, hr, hm, hrr⟩
      · simp only at hlt
        rw [hmm] at hlt
        omega
      · exact ⟨r, List.mem_of_mem_filter hr, hm, hrr.symm⟩
    · rw [heq] at hlt
      simp only at hlt
      omega

/-- Witness for C8 at a confirmed delivery that advances the mark. -/
theorem claim8_hwm_monotone_witness :
    ∃ d ∈ (tick "PC1" [] 0 [] [⟨42, "d", "PC1", some "x"⟩] true).enviados,
      d.machine = "PC1" ∧
      d.record_id = (tick "PC1" [] 0 [] [⟨42, "d", "PC1", some "x"⟩] true).hwm :=
  ((claim8_hwm_monotone "PC1" [] 0 [] [⟨42, "d", "PC1", some "x"⟩] true
    [] 0 [] 50 3 (fun _ _ => .netErr)
    (fun d hd => absurd hd (List.not_mem_nil d))).2.1 (by decide)).2

end Agente

namespace Agente

theorem chunksOfAux_flatten {α : Type} (bs : Nat) :
    ∀ (fuel : Nat) (l : List α), l.length ≤ fuel → (chunksOfAux bs fuel l).flatten = l := by
  intro fuel
  induction fuel with
  | zero =>
    intro l h
    match l with
    | [] => rfl
    | x :: xs => simp at h
  | succ f ih =>
    intro l h
    match l with
    | [] => rfl
    | x :: xs =>
      show (((x :: xs).take (max bs 1)) ::
        chunksOfAux bs f ((x :: xs).drop (max bs 1))).flatten = x :: xs
      rw [List.flatten_cons]
      have hlen : ((x :: xs).drop (max bs 1)).length ≤ f := by
        rw [List.length_drop]
        simp only [List.length_cons] at h ⊢
        have h1 : 1 ≤ max bs 1 := le_max_right _ _
        omega
      rw [ih _ hlen]
      exact List.take_append_drop _ _

theorem chunksOf_flatten {α : Type} (bs : Nat) (l : List α) : (chunksOf bs l).flatten = l :=
  chunksOfAux_flatten bs l.length l le_rfl

theorem send_events_batch_batches (events : List Dados) (bs mr : Nat)
    (att : Nat → Nat → AttemptResult) (h : events ≠ []) :
    (send_events_batch events bs mr att).batches = chunksOf bs (events.map strip) := by
  unfold send_events_batch
  rw [if_neg (fun he => h (List.isEmpty_iff.mp he))]

/-! ## Claim C3 -/

/-- C3: for a catch-up pass, if the batched delivery fails (some batch
exhausted its retries) then nothing is marked, nothing is persisted and the
high-water mark is unchanged; if the delivery succeeds (the pass actually
sent batches), the state is persisted and every previously-unprocessed
event of the pass has its identity in the processed set afterwards. -/
theorem claim3_catchup_all_or_nothing (machine : String) (ids : List String) (hwm : Nat)
    (raws : List RawEvent) (bs mr : Nat) (att : Nat → Nat → AttemptResult) :
    ((processar_todos_eventos machine ids hwm raws bs mr att).delivered = false →
      (processar_todos_eventos machine ids hwm raws bs mr att).ids = ids ∧
      (processar_todos_eventos machine ids hwm raws bs mr att).saved = false ∧
      (processar_todos_eventos machine ids hwm raws bs mr att).hwm = hwm) ∧
    ((processar_todos_eventos machine ids hwm raws bs mr att).delivered = true →
      (processar_todos_eventos machine ids hwm raws bs mr att).enviados ≠ [] →
      (processar_todos_eventos machine ids hwm raws bs mr att).saved = true ∧
      ∀ r ∈ raws, criar_id_unico r.MachineName r.RecordId ∉ ids →
        criar_id_unico r.MachineName r.RecordId ∈
          (processar_todos_eventos machine ids hwm raws bs mr att).ids) := by
  constructor
  · intro hdel
    rcases processar_cases machine ids hwm raws bs mr att with
      heq | ⟨_, _, heq⟩ | ⟨_, heq⟩
    · rw [heq] at hdel
      simp at hdel
    · rw [heq] at hdel
      simp at hdel
    · rw [heq]
      exact ⟨rfl, rfl, rfl⟩
  · intro hdel hne
    rcases processar_cases machine ids hwm raws bs mr att with
      heq | ⟨_, _, heq⟩ | ⟨_, heq⟩
    · rw [heq] at hne
      simp at hne
    · rw [heq]
      refine ⟨rfl, ?_⟩
      intro r hr hnot
      show criar_id_unico r.MachineName r.RecordId ∈
        marcarRaws (raws.filter fun r =>
          decide (criar_id_unico r.MachineName r.RecordId ∉ ids)) ids
      apply (marcarRaws_mem _ _ _).mpr
      right
      exact ⟨r, List.mem_filter.mpr ⟨hr, decide_eq_true hnot⟩, rfl⟩
    · rw [heq] at hdel
      simp at hdel

/-- Witness for C3: a one-event pass that succeeds marks and persists; the
same pass with the collector down leaves the set untouched. -/
theorem claim3_catchup_all_or_nothing_witness :
    ((processar_todos_eventos "PC1" [] 0 [⟨7, "d", "PC1", some "x"⟩] 50 3
        (fun _ _ => .status 200)).saved = true ∧
      "PC1_7" ∈ (processar_todos_eventos "PC1" [] 0 [⟨7, "d", "PC1", some "x"⟩] 50 3
        (fun _ _ => .status 200)).ids) ∧
    (processar_todos_eventos "PC1" [] 0 [⟨7, "d", "PC1", some "x"⟩] 50 3
      (fun _ _ => .netErr)).ids = [] := by
  have hOK := claim3_catchup_all_or_nothing "PC1" [] 0 [⟨7, "d", "PC1", some "x"⟩] 50 3
    (fun _ _ => .status 200)
  have hKO := claim3_catchup_all_or_nothing "PC1" [] 0 [⟨7, "d", "PC1", some "x"⟩] 50 3
    (fun _ _ => .netErr)
  refine ⟨⟨(hOK.2 (by decide) (by decide)).1, ?_⟩, (hKO.1 (by decide)).1⟩
  exact (hOK.2 (by decide) (by decide)).2 ⟨7, "d", "PC1", some "x"⟩
    (List.mem_singleton.mpr rfl) (by decide)

/-! ## Claim C10 -/

/-- C10: in the catch-up pass, a raw event whose extraction fails is still
marked as processed and persisted once the rest of the pass delivers: the
marking loop of lines 590-594 runs over the *raw* unprocessed events, while
the transmitted payload is exactly the stripped successfully-extracted
records, which (by `hfail`) contain nothing derived from `raw`. -/
theorem claim10_failed_extraction_marked (machine : String) (ids : List String)
    (hwm : Nat) (raws : List RawEvent) (bs mr : Nat)
    (att : Nat → Nat → AttemptResult) (raw : RawEvent)
    (hmem : raw ∈ raws)
    (hnew : criar_id_unico raw.MachineName raw.RecordId ∉ ids)
    (hfail : extrair_dados_evento machine raw = none)
    (hsaved : (processar_todos_eventos machine ids hwm raws bs mr att).saved = true) :
    criar_id_unico raw.MachineName raw.RecordId ∈
      (processar_todos_eventos machine ids hwm raws bs mr att).ids ∧
    (processar_todos_eventos machine ids hwm raws bs mr att).enviados.flatten =
      ((raws.filter fun r =>
          decide (criar_id_unico r.MachineName r.RecordId ∉ ids)).filterMap
        (extrair_dados_evento machine)).map strip := by
  rcases processar_cases machine ids hwm raws bs mr att with
    heq | ⟨_, hne, heq⟩ | ⟨_, heq⟩
  · rw [heq] at hsaved
    simp at hsaved
  · rw [heq]
    constructor
    · apply (marcarRaws_mem _ _ _).mpr
      right
      exact ⟨raw, List.mem_filter.mpr ⟨hmem, decide_eq_true hnew⟩, rfl⟩
    · show (send_events_batch _ bs mr att).batches.flatten = _
      rw [send_events_batch_batches _ bs mr att hne]
      exact chunksOf_flatten bs _
  · rw [heq] at hsaved
    simp at hsaved

/-- Witness for C10: event 9 has a null message (extraction fails), event
10 extracts and delivers; after the pass, `PC1_9` is durably marked as
processed although it was never transmitted. -/
theorem claim10_failed_extraction_marked_witness :
    "PC1_9" ∈ (processar_todos_eventos "PC1" [] 0
      [⟨9, "d", "PC1", none⟩, ⟨10, "d", "PC1", some "x"⟩] 50 3
      (fun _ _ => .status 200)).ids :=
  (claim10_failed_extraction_marked "PC1" [] 0
    [⟨9, "d", "PC1", none⟩, ⟨10, "d", "PC1", some "x"⟩] 50 3
    (fun _ _ => .status 200) ⟨9, "d", "PC1", none⟩
    (by decide) (by decide) rfl (by decide)).1

end Agente

namespace Agente

theorem attemptSuccess_iff (a : AttemptResult) :
    attemptSuccess a = true ↔ a = .status 200 := by
  cases a with
  | status c =>
    simp only [attemptSuccess, beq_iff_eq, AttemptResult.status.injEq]
  | netErr =>
    simp [attemptSuccess]

theorem sendLoop_spec (att : Nat → AttemptResult) :
    ∀ (n i : Nat),
      (sendLoop att n i).attempts ≤ n ∧
      (sendLoop att n i).sleeps = (sendLoop att n i).attempts - 1 ∧
      (0 < n → 0 < (sendLoop att n i).attempts) ∧
      ((sendLoop att n i).success = true ↔
        ∃ k, k < n ∧ attemptSuccess (att (i + k)) = true) ∧
      ((sendLoop att n i).success = false → (sendLoop att n i).attempts = n) := by
  intro n
  induction n with
  | zero =>
    intro i
    refine ⟨le_rfl, rfl, by omega, ?_, fun _ => rfl⟩
    simp only [sendLoop]
    constructor
    · intro h
      exact absurd h (by simp)
    · rintro ⟨k, hk, _⟩
      omega
  | succ m ih =>
    intro i
    by_cases hs : attemptSuccess (att i) = true
    · have hval : sendLoop att (m + 1) i = ⟨true, 1, 0⟩ := by
        rw [sendLoop, if_pos hs]
      rw [hval]
      refine ⟨by show (1 : Nat) ≤ m + 1; omega, rfl, fun _ => Nat.one_pos, ?_, by simp⟩
      constructor
      · intro _
        exact ⟨0, by omega, by simpa using hs⟩
      · intro _
        rfl
    · have hs' : attemptSuccess (att i) = false := by
        simpa using hs
      by_cases hm : m = 0
      · subst hm
        have hval : sendLoop att 1 i = ⟨false, 1, 0⟩ := by
          rw [sendLoop, if_neg hs, if_pos rfl]
        rw [hval]
        refine ⟨le_rfl, rfl, fun _ => Nat.one_pos, ?_, fun _ => rfl⟩
        constructor
        · intro h
          exact absurd h (by simp)
        · rintro ⟨k, hk, hsk⟩
          interval_cases k
          rw [Nat.add_zero] at hsk
          exact absurd hsk hs
      · obtain ⟨m', rfl⟩ : ∃ m', m = m' + 1 := ⟨m - 1, by omega⟩
        have hval : sendLoop att (m' + 1 + 1) i =
            ⟨(sendLoop att (m' + 1) (i + 1)).success,
              (sendLoop att (m' + 1) (i + 1)).attempts + 1,
              (sendLoop att (m' + 1) (i + 1)).sleeps + 1⟩ := by
          rw [sendLoop, if_neg hs, if_neg (by omega)]
        obtain ⟨ha, hz, hpos, hiff, hfl⟩ := ih (i + 1)
        rw [hval]
        refine ⟨?_, ?_, ?_, ?_, ?_⟩
        · show (sendLoop att (m' + 1) (i + 1)).attempts + 1 ≤ m' + 1 + 1
          omega
        · show (sendLoop att (m' + 1) (i + 1)).sleeps + 1 =
            (sendLoop att (m' + 1) (i + 1)).attempts + 1 - 1
          have h1 := hpos (Nat.succ_pos m')
          rw [Nat.add_sub_cancel, hz, Nat.sub_add_cancel h1]
        · intro _
          show 0 < (sendLoop att (m' + 1) (i + 1)).attempts + 1
          omega
        · show (sendLoop att (m' + 1) (i + 1)).success = true ↔ _
          rw [hiff]
          constructor
          · rintro ⟨k, hk, hsk⟩
            exact ⟨k + 1, by omega, by rwa [show i + (k + 1) = i + 1 + k by omega]⟩
          · rintro ⟨k, hk, hsk⟩
            match k with
            | 0 =>
              rw [Nat.add_zero] at hsk
              exact absurd hsk hs
            | k' + 1 =>
              exact ⟨k', by omega, by rwa [show i + 1 + k' = i + (k' + 1) by omega]⟩
        · show (sendLoop att (m' + 1) (i + 1)).success = false →
            (sendLoop att (m' + 1) (i + 1)).attempts + 1 = m' + 1 + 1
          intro hf
          rw [hfl hf]

theorem sendBatches_getElem (mr : Nat) (att2 : Nat → Nat → AttemptResult) :
    ∀ (bats : List (List SentEvent)) (j i : Nat),
      (sendBatches mr att2 j bats)[i]? =
        (bats[i]?).map fun b => (send_events b mr (att2 (j + i))).success := by
  intro bats
  induction bats with
  | nil =>
    intro j i
    simp [sendBatches]
  | cons b rest ih =>
    intro j i
    match i with
    | 0 =>
      simp [sendBatches]
    | k + 1 =>
      rw [show sendBatches mr att2 j (b :: rest) =
        (send_events b mr (att2 j)).success :: sendBatches mr att2 (j + 1) rest from rfl]
      rw [List.getElem?_cons_succ, List.getElem?_cons_succ]
      rw [ih (j + 1) k]
      rw [show j + 1 + k = j + (k + 1) by omega]

/-! ## Claim C7 -/

/-- C7: a batch delivery succeeds exactly when one of the at most
`max_retries` HTTP attempts returns status 200 (any other status and any
network error count as failures); a fixed 5-second sleep separates
consecutive attempts with none after the final one (`sleeps = attempts-1`);
on failure the whole budget was used; and in `send_events_batch` the
outcome of batch `i` depends only on batch `i` and its own oracle, so the
retry budget is independent per batch. -/
theorem claim7_sender_retries (events : List SentEvent) (mr : Nat)
    (att : Nat → AttemptResult) (h : events ≠ []) :
    ((send_events events mr att).success = true ↔
      ∃ k, k < mr ∧ att k = .status 200) ∧
    (send_events events mr att).attempts ≤ mr ∧
    (send_events events mr att).sleeps = (send_events events mr att).attempts - 1 ∧
    ((send_events events mr att).success = false →
      (send_events events mr att).attempts = mr) ∧
    (∀ (evs : List Dados) (bsz : Nat) (att2 : Nat → Nat → AttemptResult) (i : Nat),
      (send_events_batch evs bsz mr att2).results[i]? =
        ((send_events_batch evs bsz mr att2).batches[i]?).map
          (fun b => (send_events b mr (att2 i)).success)) := by
  have hse : send_events events mr att = sendLoop att mr 0 := by
    unfold send_events
    rw [if_neg (fun he => h (List.isEmpty_iff.mp he))]
  obtain ⟨ha, hz, _, hiff, hfl⟩ := sendLoop_spec att mr 0
  rw [hse]
  refine ⟨?_, ha, hz, hfl, ?_⟩
  · rw [hiff]
    constructor
    · rintro ⟨k, hk, hsk⟩
      exact ⟨k, hk, (attemptSuccess_iff _).mp (by rwa [Nat.zero_add] at hsk)⟩
    · rintro ⟨k, hk, hsk⟩
      exact ⟨k, hk, by rw [Nat.zero_add]; exact (attemptSuccess_iff _).mpr hsk⟩
  · intro evs bsz att2 i
    unfold send_events_batch
    by_cases he : evs.isEmpty = true
    · rw [if_pos he]
      rfl
    · rw [if_neg he]
      show (sendBatches mr att2 0 (chunksOf bsz (evs.map strip)))[i]? = _
      rw [sendBatches_getElem mr att2 (chunksOf bsz (evs.map strip)) 0 i, Nat.zero_add]

/-- Witness for C7: three attempts, the second returns 200; the call
succeeds, performs two attempts and one sleep. -/
theorem claim7_sender_retries_witness :
    (send_events [⟨"d", "m", 1⟩] 3
      (fun i => if i = 1 then .status 200 else .netErr)).success = true := by
  have h := claim7_sender_retries [⟨"d", "m", 1⟩] 3
    (fun i => if i = 1 then .status 200 else .netErr) (by simp)
  exact h.1.mpr ⟨1, by omega, rfl⟩

end Agente

namespace Agente

/-! ## Claim C5 -/

theorem extrair_paginas_bounds (m : List Char) :
    1 ≤ extrair_paginas m ∧ extrair_paginas m ≤ 10000 := by
  simp only [extrair_paginas]
  split_ifs with h
  · exact ⟨le_rfl, by norm_num⟩
  · push_neg at h
    omega

/-- C5: every successfully extracted record has `1 ≤ pages ≤ 10000`, and a
message whose pre-validation page value falls outside that range (an
out-of-range match, or the untouched default) comes out with the default
`1` after the final validation of lines 438-441. -/
theorem claim5_page_bounds (machine : String) (raw : RawEvent) (d : Dados)
    (h : extrair_dados_evento machine raw = some d) :
    1 ≤ d.pages ∧ d.pages ≤ 10000 ∧
    ∀ msg, raw.Message = some msg →
      (paginas_pre msg.data < 1 ∨ paginas_pre msg.data > 10000) → d.pages = 1 := by
  unfold extrair_dados_evento at h
  match hm : raw.Message with
  | none =>
    rw [hm] at h
    simp at h
  | some m =>
    rw [hm] at h
    simp only [Option.some.injEq] at h
    have hp : d.pages = extrair_paginas m.data := by
      rw [← h]
    refine ⟨by rw [hp]; exact (extrair_paginas_bounds m.data).1,
      by rw [hp]; exact (extrair_paginas_bounds m.data).2, ?_⟩
    intro msg hmsg hrange
    injection hmsg with hmsg
    subst hmsg
    rw [hp]
    simp only [extrair_paginas]
    rw [if_pos hrange]

/-- Witness for C5: `"Pages printed: 0"` matches with the out-of-range
value 0 and is clamped to the default 1. -/
theorem claim5_page_bounds_witness :
    ∃ d, extrair_dados_evento "PC1" ⟨7, "d", "PC1", some "Pages printed: 0"⟩ = some d ∧
      1 ≤ d.pages ∧ d.pages ≤ 10000 ∧ d.pages = 1 := by
  refine ⟨_, rfl, ?_, ?_, ?_⟩
  · exact (claim5_page_bounds "PC1" ⟨7, "d", "PC1", some "Pages printed: 0"⟩ _ rfl).1
  · exact (claim5_page_bounds "PC1" ⟨7, "d", "PC1", some "Pages printed: 0"⟩ _ rfl).2.1
  · exact (claim5_page_bounds "PC1" ⟨7, "d", "PC1", some "Pages printed: 0"⟩ _ rfl).2.2
      "Pages printed: 0" rfl (by decide)

/-! ## Claim C6 -/

theorem paginas_base_en_eq (m : List Char) :
    paginas_base_en m = (padroes_en.findSome? (fun p => reSearch p m)).getD 1 := by
  unfold paginas_base_en padroes_en
  cases h1 : reSearch mEN1 m
  · cases h2 : reSearch mEN2 m
    · cases h3 : reSearch mEN3 m
      · cases h4 : reSearch mEN4 m <;>
          simp [List.findSome?_cons, List.findSome?_nil, h1, h2, h3, h4]
      · simp [List.findSome?_cons, h1, h2, h3]
    · simp [List.findSome?_cons, h1, h2]
  · simp [List.findSome?_cons, h1]

theorem paginas_base_pt_eq (m : List Char) :
    paginas_base_pt m = (padroes_pt.findSome? (fun p => reSearch p m)).getD 1 := by
  unfold paginas_base_pt padroes_pt
  cases h1 : reSearch mPT1 m
  · cases h2 : reSearch mPT2 m
    · cases h3 : reSearch mPT3 m <;>
        simp [List.findSome?_cons, List.findSome?_nil, h1, h2, h3]
    · simp [List.findSome?_cons, h1, h2]
  · simp [List.findSome?_cons, h1]

/-- C6 counterexample: on
`"Pages printed: 20000, 5 pages"` the first pattern *yielding an in-range
value* (per the claim: pattern (c), value 5) predicts page count 5, but the
code takes the first *matching* pattern (a) with the out-of-range value
20000, skips the generic scan (value is not 1), and the final validation
replaces it by 1. -/
theorem claim6_counterexample :
    espec_c6 "Pages printed: 20000, 5 pages".data = 5 ∧
    extrair_paginas "Pages printed: 20000, 5 pages".data = 1 := by
  constructor <;> decide

/-- C6 amended: among the language-branch patterns the first pattern that
*matches* wins regardless of range ((a),(b),(c),(d) for English messages;
the Portuguese branch has no pattern (d)); the generic scan (e) runs
exactly when the value so far equals 1 and picks the first in-range match;
the final validation replaces any out-of-range value by 1. -/
theorem claim6_amended (m : List Char) : extrair_paginas m = espec_emendada m := by
  simp only [extrair_paginas, espec_emendada, paginas_pre]
  rw [show (if ptBranch m then paginas_base_pt m else paginas_base_en m) =
      ((if ptBranch m then padroes_pt else padroes_en).findSome?
        (fun p => reSearch p m)).getD 1 by
    cases hpt : ptBranch m
    · simp only [Bool.false_eq_true, if_false]
      exact paginas_base_en_eq m
    · simp only [if_true]
      exact paginas_base_pt_eq m]
  by_cases hb : ((if ptBranch m then padroes_pt else padroes_en).findSome?
      (fun p => reSearch p m)).getD 1 = 1
  · rw [if_pos hb, if_pos hb]
    cases hg : genericFirstInRange m
    · simp only [Option.getD_none]
      rw [hb]
    · simp only [Option.getD_some]
  · rw [if_neg hb, if_neg hb]

end Agente

namespace Agente

/-- Witness for the amended C1 at concrete inputs. -/
theorem claim1_amended_persistence_witness :
    (tick "PC1" [] 0 [] [] false).saved = none ∧
    (drain "PC1" ["PC1_42"] [] false).persists.getLast? =
      some (drain "PC1" ["PC1_42"] [] false).ids ∧
    (drain "PC1" ["PC1_42"] [] false).persists.length ≠ 0 :=
  claim1_amended_persistence "PC1" [] 0 [] [] ["PC1_42"] [] false

/-- Witness for the amended C6 on a message where the generic scan fires. -/
theorem claim6_amended_witness :
    extrair_paginas "Pages printed: 1. Total: 9".data =
      espec_emendada "Pages printed: 1. Total: 9".data :=
  claim6_amended "Pages printed: 1. Total: 9".data

end Agente
